import Mathlib

/-!
Verification development for the package-registry source: a shallow
embedding of the version comparators, the artifacts (archive streaming)
handler, the kibana-compatibility filter, the version-consistency
validation, and the dataset-loading logic, with theorems settling the
behavioural claims about them.

Strings are modelled as `List Char` throughout so that every string
operation is a structurally recursive, kernel-computable function.
-/

namespace Registry

/-! ## Shared character classes and numeric parsing

Both vendored semver libraries check characters against explicit ASCII
constants (`num`, `alphanum`, hyphen) and parse numeric segments with
`strconv.ParseUint(s, 10, 64)`. -/

/-- Membership in the Go constant `num = "0123456789"`. -/
def isNum (c : Char) : Bool :=
  c == '0' || c == '1' || c == '2' || c == '3' || c == '4' ||
  c == '5' || c == '6' || c == '7' || c == '8' || c == '9'

/-- Membership in the ASCII letter ranges of the `alphanum` constants. -/
def isLetter (c : Char) : Bool :=
  ('a' ≤ c && c ≤ 'z') || ('A' ≤ c && c ≤ 'Z')

/-- Membership in letters + digits + `-` (the `allowed` / `alphanums`
character sets of the two semver libraries). -/
def isAlnumHyphen (c : Char) : Bool :=
  isLetter c || isNum c || c == '-'

/-- Numeric value of an ASCII digit. -/
def digitVal (c : Char) : Nat := c.toNat - 48

/-- Decimal value of a digit string (what `strconv.ParseUint` computes). -/
def digitsVal : List Char → Nat
  | [] => 0
  | c :: t => digitVal c * 10 ^ t.length + digitsVal t

/-- Go `containsOnly(s, num)`. -/
def allNum (l : List Char) : Bool := l.all isNum

/-- Go `len(p) > 1 && p[0] == '0'` (the `hasLeadingZeroes` check). -/
def hasLeadingZero (l : List Char) : Bool :=
  match l with
  | c :: _ :: _ => c == '0'
  | _ => false

/-- `strconv.ParseUint(s, 10, 64)`: succeeds exactly on a non-empty
all-digit string whose value fits in 64 bits. -/
def parseUint64 (l : List Char) : Option Nat :=
  if l.isEmpty then none
  else if allNum l then
    if digitsVal l < 18446744073709551616 then some (digitsVal l) else none
  else none

/-! ## String splitting helpers (Go `strings` package) -/

/-- Go `strings.Split(s, sep)` for a one-character separator. -/
def splitOnChar (sep : Char) : List Char → List (List Char)
  | [] => [[]]
  | c :: cs =>
    match splitOnChar sep cs with
    | h :: t => if c == sep then [] :: h :: t else (c :: h) :: t
    | [] => [[c]]

/-- Joins with a one-character separator (inverse of `splitOnChar`). -/
def intercalateChar (sep : Char) : List (List Char) → List Char
  | [] => []
  | [x] => x
  | x :: xs => x ++ sep :: intercalateChar sep xs

/-- Go `strings.SplitN(s, sep, 3)` for a one-character separator. -/
def splitN3 (sep : Char) (s : List Char) : List (List Char) :=
  match splitOnChar sep s with
  | p0 :: p1 :: p2 :: rest => [p0, p1, intercalateChar sep (p2 :: rest)]
  | l => l

/-- Splits at the first occurrence of `sep` (Go `strings.SplitN(s, sep, 2)`
with the "found" case distinguished, as `strings.IndexRune` callers do). -/
def splitFirst (sep : Char) : List Char → Option (List Char × List Char)
  | [] => none
  | c :: cs =>
    if c == sep then some ([], cs)
    else
      match splitFirst sep cs with
      | none => none
      | some (l, r) => some (c :: l, r)

/-- Go byte-wise lexicographic string comparison (`s < o`); the compared
strings are ASCII here, so comparing codepoints equals comparing bytes. -/
def lexLt : List Char → List Char → Bool
  | [], [] => false
  | [], _ :: _ => true
  | _ :: _, [] => false
  | a :: as, b :: bs =>
    if a.toNat < b.toNat then true
    else if b.toNat < a.toNat then false
    else lexLt as bs

/-! ## Masterminds/semver v3 (used by `util/package.go`)

`StrictNewVersion`, `Compare`/`LessThan` and the prerelease comparison,
embedded from the library the current `util/package.go` revision imports. -/

namespace MSemver

/-- The parsed `semver.Version`: numeric segments plus the raw prerelease
and build-metadata strings (the library stores both as strings and splits
the prerelease on demand when comparing). -/
structure MVersion where
  major : Nat
  minor : Nat
  patch : Nat
  pre : List Char
  metadata : List Char
deriving DecidableEq

/-- One loop step of `validatePrerelease`: an all-numeric identifier must
not have a leading zero, anything else must use only `[0-9A-Za-z-]`. -/
def validPreIdent (p : List Char) : Bool :=
  if allNum p then !(hasLeadingZero p) else p.all isAlnumHyphen

/-- `validatePrerelease`: every dot-separated identifier passes
`validPreIdent`. -/
def validatePrerelease (pre : List Char) : Bool :=
  (splitOnChar '.' pre).all validPreIdent

/-- `validateMetadata`: every dot-separated identifier uses only
`[0-9A-Za-z-]`. -/
def validateMetadata (md : List Char) : Bool :=
  (splitOnChar '.' md).all (fun p => p.all isAlnumHyphen)

/-- The prerelease/metadata extraction step of `StrictNewVersion`: when the
third dot-part contains `-` or `+`, build metadata is split off first (at
the first `+`), then the prerelease (at the first `-` of what is left).
Returns `(patch segment, prerelease, metadata)`. -/
def extractExtras (p2 : List Char) : List Char × List Char × List Char :=
  if p2.any (fun c => c == '-' || c == '+') then
    let (p2a, md) :=
      match splitFirst '+' p2 with
      | some (l, r) => (l, r)
      | none => (p2, [])
    let (patchStr, pre) :=
      match splitFirst '-' p2a with
      | some (l, r) => (l, r)
      | none => (p2a, [])
    (patchStr, pre, md)
  else (p2, [], [])

/-- `semver.StrictNewVersion`: exactly three dot-separated parts; numeric
segments are digit-only without leading zeroes and must fit `ParseUint`;
a non-empty prerelease/metadata must validate. -/
def strictNewVersion (v : List Char) : Option MVersion :=
  match splitN3 '.' v with
  | [p0, p1, p2] =>
    let (patchStr, pre, md) := extractExtras p2
    if !(allNum p0 && allNum p1 && allNum patchStr) then none
    else if hasLeadingZero p0 || hasLeadingZero p1 || hasLeadingZero patchStr then none
    else
      match parseUint64 p0, parseUint64 p1, parseUint64 patchStr with
      | some major, some minor, some patch =>
        if pre.isEmpty && md.isEmpty then some ⟨major, minor, patch, pre, md⟩
        else if !pre.isEmpty && !validatePrerelease pre then none
        else if !md.isEmpty && !validateMetadata md then none
        else some ⟨major, minor, patch, pre, md⟩
      | _, _, _ => none
  | _ => none

/-- `compareSegment`. -/
def compareSegment (v o : Nat) : Int :=
  if v < o then -1 else if v > o then 1 else 0

/-- `comparePrePart`: equal strings tie; an empty identifier loses to a
non-empty one; numeric identifiers (parseable by `ParseUint`) compare
numerically and rank below alphanumeric ones; otherwise plain string
comparison. -/
def comparePrePart (s o : List Char) : Int :=
  if s = o then 0
  else if s = [] then (if o ≠ [] then -1 else 1)
  else if o = [] then (if s ≠ [] then 1 else -1)
  else
    match parseUint64 o, parseUint64 s with
    | none, none => if lexLt o s then 1 else -1
    | none, some _ => -1
    | some _, none => 1
    | some oi, some si => if si > oi then 1 else -1

/-- The tail of the `comparePrerelease` loop once the left side ran out of
parts: the left placeholder is `""`. -/
def compEmptyLeft : List (List Char) → Int
  | [] => 0
  | o :: os =>
    let d := comparePrePart [] o
    if d ≠ 0 then d else compEmptyLeft os

/-- The tail of the `comparePrerelease` loop once the right side ran out of
parts: the right placeholder is `""`. -/
def compEmptyRight : List (List Char) → Int
  | [] => 0
  | s :: ss =>
    let d := comparePrePart s []
    if d ≠ 0 then d else compEmptyRight ss

/-- The `comparePrerelease` loop over the two part lists, padding the
shorter list with `""`. -/
def compPreLists : List (List Char) → List (List Char) → Int
  | [], os => compEmptyLeft os
  | s :: ss, [] =>
    let d := comparePrePart s []
    if d ≠ 0 then d else compEmptyRight ss
  | s :: ss, o :: os =>
    let d := comparePrePart s o
    if d ≠ 0 then d else compPreLists ss os

/-- `comparePrerelease`: split both prerelease strings on `.` and compare
part-wise. -/
def comparePrerelease (v o : List Char) : Int :=
  compPreLists (splitOnChar '.' v) (splitOnChar '.' o)

/-- The prerelease step of `Version.Compare`: an absent prerelease ranks
above any present one; otherwise compare the prerelease strings. -/
def mcomparePre (p q : List Char) : Int :=
  if p = [] && q = [] then 0
  else if p = [] then 1
  else if q = [] then -1
  else comparePrerelease p q

/-- `Version.Compare`: major, minor, patch, then prerelease; build
metadata is ignored. -/
def mcompare (a b : MVersion) : Int :=
  if compareSegment a.major b.major ≠ 0 then compareSegment a.major b.major
  else if compareSegment a.minor b.minor ≠ 0 then compareSegment a.minor b.minor
  else if compareSegment a.patch b.patch ≠ 0 then compareSegment a.patch b.patch
  else mcomparePre a.pre b.pre

/-- `Version.LessThan`. -/
def lessThan (a b : MVersion) : Bool := mcompare a b < 0

/-- `Package.IsNewerOrEqual` from `util/package.go`: not-less-than over the
packages' parsed versions. -/
def IsNewerOrEqual (v pv : MVersion) : Bool := !(lessThan v pv)

/-- `newerOrEqual` over version strings: parse both with
`StrictNewVersion` (as `Package.Validate` does to set `versionSemVer`) and
apply `IsNewerOrEqual`; `none` models the caller error on unparseable
input. -/
def newerOrEqualStr (a b : List Char) : Option Bool :=
  match strictNewVersion a, strictNewVersion b with
  | some va, some vb => some (IsNewerOrEqual va vb)
  | _, _ => none

end MSemver

example : MSemver.strictNewVersion "1.2.3".data =
    some ⟨1, 2, 3, [], []⟩ := by decide
example : MSemver.strictNewVersion "1.2.3-alpha.1+b12".data =
    some ⟨1, 2, 3, "alpha.1".data, "b12".data⟩ := by decide
example : MSemver.strictNewVersion "1.2".data = none := by decide
example : MSemver.strictNewVersion "1.02.3".data = none := by decide
example : MSemver.strictNewVersion "a.b.c".data = none := by decide
example : MSemver.newerOrEqualStr "1.0.0+a".data "1.0.0+b".data = some true := by decide
example : MSemver.newerOrEqualStr "1.0.0-alpha".data "1.0.0".data = some false := by decide
example : MSemver.newerOrEqualStr "1.0.0".data "1.0.0-alpha".data = some true := by decide
example : MSemver.newerOrEqualStr "1.0.0-alpha.2".data "1.0.0-alpha.10".data = some false := by decide

/-! ## blang/semver (used by `artifacts.go` and the legacy
`util/package.go` revision) -/

namespace BSemver

/-- A parsed prerelease identifier (`PRVersion`): numeric or
alphanumeric. -/
inductive PRVersion where
  | num (n : Nat)
  | alphanum (s : List Char)
deriving DecidableEq

/-- The parsed `semver.Version` of blang/semver. -/
structure BVersion where
  major : Nat
  minor : Nat
  patch : Nat
  pre : List PRVersion
  build : List (List Char)
deriving DecidableEq

/-- `NewPRVersion`: an all-numeric identifier must have no leading zeroes
and parse as uint64; otherwise the identifier must be alphanumeric
(letters, digits, hyphen); empty identifiers fail. -/
def newPRVersion (s : List Char) : Option PRVersion :=
  if allNum s then
    if hasLeadingZero s then none
    else
      match parseUint64 s with
      | some n => some (.num n)
      | none => none
  else if s.all isAlnumHyphen then some (.alphanum s)
  else none

/-- Maps `newPRVersion` over the split prerelease parts, failing if any
part fails (the `for` loop of `Parse`). -/
def parsePreParts : List (List Char) → Option (List PRVersion)
  | [] => some []
  | p :: ps =>
    match newPRVersion p, parsePreParts ps with
    | some v, some vs => some (v :: vs)
    | _, _ => none

/-- One build identifier check of `Parse`: non-empty and alphanumeric. -/
def buildIdentOK (b : List Char) : Bool := !b.isEmpty && b.all isAlnumHyphen

/-- `semver.Parse` of blang/semver: three dot-separated parts; major,
minor and the patch remainder (after cutting build metadata at the first
`+` and the prerelease at the first `-`) are digit-only without leading
zeroes; prerelease and build identifiers validate. -/
def parse (s : List Char) : Option BVersion :=
  if s.isEmpty then none
  else
    match splitN3 '.' s with
    | [p0, p1, p2] =>
      if !allNum p0 then none
      else if hasLeadingZero p0 then none
      else
        match parseUint64 p0 with
        | none => none
        | some major =>
          if !allNum p1 then none
          else if hasLeadingZero p1 then none
          else
            match parseUint64 p1 with
            | none => none
            | some minor =>
              let (patchCand, buildParts) :=
                match splitFirst '+' p2 with
                | some (l, r) => (l, splitOnChar '.' r)
                | none => (p2, [])
              let (patchStr, preParts) :=
                match splitFirst '-' patchCand with
                | some (l, r) => (l, splitOnChar '.' r)
                | none => (patchCand, [])
              if !allNum patchStr then none
              else if hasLeadingZero patchStr then none
              else
                match parseUint64 patchStr with
                | none => none
                | some patch =>
                  match parsePreParts preParts with
                  | none => none
                  | some pre =>
                    if buildParts.all buildIdentOK then
                      some ⟨major, minor, patch, pre, buildParts⟩
                    else none
    | _ => none

end BSemver

example : BSemver.parse "1.0.0".data = some ⟨1, 0, 0, [], []⟩ := by decide
example : BSemver.parse "a.b.c".data = none := by decide
example : BSemver.parse "1.0".data = none := by decide
example : BSemver.parse "1.0.0-beta.1+b2".data =
    some ⟨1, 0, 0, [.alphanum "beta".data, .num 1], ["b2".data]⟩ := by decide
example : BSemver.parse "".data = none := by decide
example : BSemver.parse "1.0.0-01".data = none := by decide

/-! ## `artifacts.go`: the archive-streaming handler

The handler parses the version (blang `semver.Parse`), stats the package
directory, then streams a gzip-compressed tar of the directory produced
by `filepath.Walk`.  The walk is modelled as the list of
`(relative path, FileInfo, incoming error)` events it delivers (in walk
order, the root `"."` first), and the response sink as the list of tar
items written to it. -/

/-- One `filepath.Walk` callback invocation: the path relative to the
package directory (`filepath.Rel` of the walked path), the `os.FileInfo`
fields the handler consumes, the file bytes on disk, whether the walk
delivered an error for this entry (`err != nil` in the callback), and
whether opening/copying the file content fails mid-stream. -/
structure WalkEntry where
  relPath : List Char
  isDir : Bool
  size : Nat
  mode : Nat
  modTime : Nat
  content : List Nat
  walkErr : Bool
  openErr : Bool
deriving DecidableEq

/-- The tar header fields set by `tar.FileInfoHeader` and
`buildArchiveHeader`. -/
structure TarHeader where
  name : List Char
  size : Nat
  mode : Nat
  modTime : Nat
  isDirType : Bool
deriving DecidableEq

/-- One item written to the archive stream: a tar header or a run of file
content bytes (`io.Copy` in `writeFileContentToArchive`). -/
inductive StreamItem where
  | header (h : TarHeader)
  | fileBytes (b : List Nat)
deriving DecidableEq

/-- `buildArchiveHeader`: `tar.FileInfoHeader` copies mode and
modification time from the `FileInfo`, sets the size from the `FileInfo`
for regular files only (directory headers keep size 0) and the type flag
from `IsDir`; the handler then overwrites the name with the relative path
and appends `/` for directories. -/
def buildArchiveHeader (e : WalkEntry) : TarHeader :=
  { name := e.relPath ++ (if e.isDir then ['/'] else [])
  , size := if e.isDir then 0 else e.size
  , mode := e.mode
  , modTime := e.modTime
  , isDirType := e.isDir }

/-- The walk callback, folded over the walk events: an incoming error
aborts the walk; the root `"."` is skipped; otherwise the header is
written, followed by the file content for non-directories (aborting if
the file cannot be opened or copied).  Returns the items written and
whether the walk returned an error. -/
def runWalk : List WalkEntry → List StreamItem × Bool
  | [] => ([], false)
  | e :: es =>
    if e.walkErr then ([], true)
    else if e.relPath = ['.'] then runWalk es
    else
      let h := buildArchiveHeader e
      if e.isDir then
        ((StreamItem.header h) :: (runWalk es).1, (runWalk es).2)
      else if e.openErr then ([StreamItem.header h], true)
      else
        (StreamItem.header h :: StreamItem.fileBytes e.content :: (runWalk es).1,
          (runWalk es).2)

/-- The outcome of `os.Stat(packagePath)` as the handler distinguishes
it: success, `os.IsNotExist`, or any other error. -/
inductive StatR where
  | okStat
  | notExist
  | statErr
deriving DecidableEq

/-- The two writers closed by the deferred function, in close order. -/
inductive Writer where
  | tarWriter
  | gzipWriter
deriving DecidableEq

/-- The handler's observable response: an error status, or a streamed
body (status 200 with the gzip content type and cache headers already
sent), together with whether the walk failed mid-stream and the order in
which the deferred closes run. -/
inductive Response where
  | badRequest
  | notFound
  | internalError
  | stream (body : List StreamItem) (walkFailed : Bool) (closes : List Writer)
deriving DecidableEq

/-- The HTTP status code of a response. -/
def Response.status : Response → Nat
  | .badRequest => 400
  | .notFound => 404
  | .internalError => 500
  | .stream _ _ _ => 200

/-- `artifactsHandler.ServeHTTP`: parse the version path segment with
blang `semver.Parse` (400 on failure), stat the package directory (404 if
absent, 500 on other stat errors), then stream the walk; the deferred
closes run tar writer first, then gzip writer, on every exit of the
streaming section. -/
def serveHTTP (statResult : StatR) (entries : List WalkEntry)
    (packageVersion : List Char) : Response :=
  match BSemver.parse packageVersion with
  | none => .badRequest
  | some _ =>
    match statResult with
    | .notExist => .notFound
    | .statErr => .internalError
    | .okStat =>
      .stream (runWalk entries).1 (runWalk entries).2
        [Writer.tarWriter, Writer.gzipWriter]

/-- The archive member name of an entry: its relative path, with `/`
appended for directories. -/
def headerName (e : WalkEntry) : List Char :=
  e.relPath ++ (if e.isDir then ['/'] else [])

/-- The items an error-free walk emits for one entry. -/
def emitEntry (e : WalkEntry) : List StreamItem :=
  StreamItem.header (buildArchiveHeader e) ::
    (if e.isDir then [] else [StreamItem.fileBytes e.content])

/-- The items an error-free walk emits for a list of entries (the root
`"."` contributes nothing). -/
def emitAll : List WalkEntry → List StreamItem
  | [] => []
  | e :: es => (if e.relPath = ['.'] then [] else emitEntry e) ++ emitAll es

/-- Whether an item is a header named `n`. -/
def isHeaderNamed (n : List Char) : StreamItem → Bool
  | .header h => h.name == n
  | .fileBytes _ => false

/-! ## `util/package.go` (current revision): kibana compatibility,
newest-version comparison, version/path consistency -/

/-- The `Conditions` struct: the raw `kibana.version` constraint string
and the pointer to its parsed form (`nil` when never parsed).  The parsed
`semver.Constraints` is modelled by its satisfaction predicate, which is
what `Check` evaluates. -/
structure Conditions where
  KibanaVersion : List Char
  kibanaVersion : Option (MSemver.MVersion → Bool)

/-- The fields of `Package` that `HasKibanaVersion` consults. -/
structure PackageC where
  conditions : Option Conditions

/-- `Package.HasKibanaVersion` (current revision): true when the package
has no `Conditions` or no version was supplied; otherwise dereference the
parsed constraint and `Check` the version.  `none` models the nil-pointer
dereference when `Conditions` exists but its constraint was never
parsed. -/
def PackageC.HasKibanaVersion (p : PackageC) (version : Option MSemver.MVersion) :
    Option Bool :=
  match p.conditions, version with
  | none, _ => some true
  | _, none => some true
  | some c, some v =>
    match c.kibanaVersion with
    | some check => some (check v)
    | none => none

/-- The legacy revision's `Requirement.Kibana`: raw constraint string and
parsed range predicate. -/
structure LegacyKibana where
  Versions : List Char
  semVerRange : BSemver.BVersion → Bool

/-- The fields of the legacy `Package` that its `HasKibanaVersion`
consults. -/
structure LegacyPackage where
  kibana : LegacyKibana

/-- `Package.HasKibanaVersion` (legacy revision): an empty constraint
string passes everything; a supplied version must satisfy the parsed
range; a nil version always passes. -/
def LegacyPackage.HasKibanaVersion (p : LegacyPackage)
    (version : Option BSemver.BVersion) : Bool :=
  if p.kibana.Versions = [] then true
  else
    match version with
    | some v => if !(p.kibana.semVerRange v) then false else true
    | none => true

/-! ### Loose parsing (`semver.NewVersion`) and `filepath.Base`, for
`validateVersionConsistency` -/

/-- Whether a dot-separated identifier list is non-empty with identifiers
over `[0-9A-Za-z-]` — the prerelease/metadata shape of the loose
`NewVersion` regular expression. -/
def identsOK (l : List Char) : Bool :=
  (splitOnChar '.' l).all (fun p => !p.isEmpty && p.all isAlnumHyphen)

/-- The numeric core of `NewVersion`: one to three dot-separated segments,
each accepted by `ParseUint` (absent segments default to 0; the wildcard
characters admitted by the regular expression make `ParseUint` fail and
so reject the string). -/
def looseCore (core pre md : List Char) : Option MSemver.MVersion :=
  match splitOnChar '.' core with
  | [sa] =>
    match parseUint64 sa with
    | some a => some ⟨a, 0, 0, pre, md⟩
    | none => none
  | [sa, sb] =>
    match parseUint64 sa, parseUint64 sb with
    | some a, some b => some ⟨a, b, 0, pre, md⟩
    | _, _ => none
  | [sa, sb, sc] =>
    match parseUint64 sa, parseUint64 sb, parseUint64 sc with
    | some a, some b, some c => some ⟨a, b, c, pre, md⟩
    | _, _, _ => none
  | _ => none

/-- The prerelease step of `NewVersion`: the first `-` (before any `+`)
starts the prerelease, which must be a valid identifier list. -/
def loosePre (c1 md : List Char) : Option MSemver.MVersion :=
  match splitFirst '-' c1 with
  | some (core, pre) => if !identsOK pre then none else looseCore core pre md
  | none => looseCore c1 [] md

/-- `semver.NewVersion` (the loose parser): an optional leading `v`, one
to three numeric segments, optional `-prerelease` and `+metadata`. -/
def looseNewVersion (s0 : List Char) : Option MSemver.MVersion :=
  let s := match s0 with
    | 'v' :: rest => rest
    | _ => s0
  match splitFirst '+' s with
  | some (c1, md) => if !identsOK md then none else loosePre c1 md
  | none => loosePre s []

/-- Go `filepath.Base` (Unix): `"."` for an empty path, otherwise strip
trailing slashes and keep everything after the last slash (`"/"` when
nothing remains). -/
def filepathBase (path : List Char) : List Char :=
  if path.isEmpty then ['.']
  else
    let p := (path.reverse.dropWhile (fun c => c == '/')).reverse
    if p.isEmpty then ['/']
    else (p.reverse.takeWhile (fun c => !(c == '/'))).reverse

/-- `Package.validateVersionConsistency`: the manifest version must parse
loosely; if the base name of the package directory does not parse as a
version the check is skipped (accepted); otherwise the two versions must
be `Equal` (compare to 0).  `true` models a nil error. -/
def validateVersionConsistency (version basePath : List Char) : Bool :=
  match looseNewVersion version with
  | none => false
  | some versionPackage =>
    match looseNewVersion (filepathBase basePath) with
    | none => true
    | some versionDir =>
      if MSemver.mcompare versionPackage versionDir = 0 then true else false

example : filepathBase "packages/example/1.0.2".data = "1.0.2".data := by decide
example : looseNewVersion "v1.2".data = some ⟨1, 2, 0, [], []⟩ := by decide
example : looseNewVersion "1.x".data = none := by decide
example : validateVersionConsistency "1.0.2".data "packages/example/1.0.2".data = true := by
  decide
example : validateVersionConsistency "1.0.2".data "packages/example/1.0.3".data = false := by
  decide
example : validateVersionConsistency "1.0.2".data "packages/example-1.0.2".data = true := by
  decide

deriving instance DecidableEq for Except

/-! ## Dataset loading and validation (`util/dataset.go`) -/

/-- The `default`-adoption loop of `DataSet.Validate`: a dataset with no
`ingest_pipeline` reference gets `default` when `default.json` or
`default.yml` is among the listed files (the method updates the
`IngestPipeline` field in place; every later read sees this value). -/
def adoptDefaultPipeline (ingestPipeline : List Char)
    (files : List (List Char)) : List Char :=
  if ingestPipeline = [] then
    if files.contains "default.json".data || files.contains "default.yml".data
    then "default".data else ingestPipeline
  else ingestPipeline

/-- `DataSet.Validate` from `util/dataset.go`: the dataset's
`elasticsearch/ingest-pipeline` directory is listed first
(`filepath.Glob`); an identifier containing a hyphen is rejected; a
dataset with no `ingest_pipeline` reference adopts `default` when
`default.json` or `default.yml` is among the listed files; a
still-unset reference with pipeline files present is an error; and a
set reference must exist as `<reference>.json` or `<reference>.yml`
(two `os.Stat` calls — an error only when both report not-exists).
`files` carries the base names of the pipeline-directory entries that
the glob and the stats see; on success the result is the (possibly
adopted) `IngestPipeline` value, modelling the method's in-place update
of that field. -/
def dataSetValidate (id ingestPipeline : List Char)
    (files : List (List Char)) : Except (List Char) (List Char) :=
  if id.contains '-' then
    Except.error "dataset name is not allowed to contain -".data
  else if (adoptDefaultPipeline ingestPipeline files).isEmpty &&
      !files.isEmpty then
    Except.error "Package contains pipelines which are not used".data
  else if !(adoptDefaultPipeline ingestPipeline files).isEmpty &&
      !(files.contains (adoptDefaultPipeline ingestPipeline files ++
          ".json".data) ||
        files.contains (adoptDefaultPipeline ingestPipeline files ++
          ".yml".data)) then
    Except.error "Defined ingest_pipeline does not exist".data
  else Except.ok (adoptDefaultPipeline ingestPipeline files)

/-- One iteration of the legacy `Package.LoadDataSets` loop, for a
dataset directory `dirName` of package `packageName` whose manifest
carries the identifier `manifestID` and pipeline reference
`ingestPipeline`, with `files` the dataset's ingest-pipeline directory
listing: go-ucfg invokes `DataSet.Validate` during `manifest.Unpack`
(see the comment in `LoadDataSets`), so validation sees the
manifest-supplied identifier; only afterwards an empty identifier
defaults to `"{package name}.{dataset directory name}"`.  Returns the
resulting dataset identifier. -/
def loadDataSet (packageName dirName manifestID ingestPipeline : List Char)
    (files : List (List Char)) : Except (List Char) (List Char) :=
  match dataSetValidate manifestID ingestPipeline files with
  | Except.error e => Except.error e
  | Except.ok _ =>
    let id := if manifestID = [] then packageName ++ '.' :: dirName else manifestID
    Except.ok id

example : dataSetValidate "nginx.access".data "entry".data
    ["entry.yml".data] = Except.ok "entry".data := by decide
example : dataSetValidate "nginx.access".data [] ["default.json".data] =
    Except.ok "default".data := by decide
example : dataSetValidate "nginx.access".data [] ["other.json".data] =
    Except.error "Package contains pipelines which are not used".data := by decide
example : dataSetValidate "nginx.access".data [] [] = Except.ok [] := by decide
example : dataSetValidate "bad-id".data [] [] =
    Except.error "dataset name is not allowed to contain -".data := by decide

/-! ## Arithmetic facts about digit strings -/

theorem isNum_elim {c : Char} (h : isNum c = true) :
    c = '0' ∨ c = '1' ∨ c = '2' ∨ c = '3' ∨ c = '4' ∨
    c = '5' ∨ c = '6' ∨ c = '7' ∨ c = '8' ∨ c = '9' := by
  simp only [isNum, Bool.or_eq_true, beq_iff_eq] at h
  tauto

theorem digitVal_le_nine {c : Char} (h : isNum c = true) : digitVal c ≤ 9 := by
  rcases isNum_elim h with rfl | rfl | rfl | rfl | rfl | rfl | rfl | rfl | rfl | rfl <;> decide

theorem digitVal_pos {c : Char} (h : isNum c = true) (h0 : c ≠ '0') :
    1 ≤ digitVal c := by
  rcases isNum_elim h with rfl | rfl | rfl | rfl | rfl | rfl | rfl | rfl | rfl | rfl
  · exact absurd rfl h0
  all_goals decide

theorem digitVal_inj {a b : Char} (ha : isNum a = true) (hb : isNum b = true)
    (h : digitVal a = digitVal b) : a = b := by
  rcases isNum_elim ha with rfl | rfl | rfl | rfl | rfl | rfl | rfl | rfl | rfl | rfl <;>
    rcases isNum_elim hb with rfl | rfl | rfl | rfl | rfl | rfl | rfl | rfl | rfl | rfl <;>
    revert h <;> decide

theorem digitsVal_lt {l : List Char} (h : allNum l = true) :
    digitsVal l < 10 ^ l.length := by
  induction l with
  | nil => simp [digitsVal]
  | cons c t ih =>
    simp only [allNum, List.all_cons, Bool.and_eq_true] at h
    have h1 : digitVal c ≤ 9 := digitVal_le_nine h.1
    have h2 : digitsVal t < 10 ^ t.length := ih h.2
    simp only [digitsVal, List.length_cons, pow_succ]
    nlinarith

theorem digitsVal_ge {c : Char} {t : List Char} (h : isNum c = true) (h0 : c ≠ '0') :
    10 ^ t.length ≤ digitsVal (c :: t) := by
  have h1 : 1 ≤ digitVal c := digitVal_pos h h0
  have h2 := Nat.mul_le_mul_right (10 ^ t.length) h1
  simp only [digitsVal]
  omega

theorem digitsVal_lt_of_length_lt {s o : List Char} (hs : allNum s = true)
    (ho : allNum o = true) (hzo : hasLeadingZero o = false) (hns : s ≠ [])
    (hlen : s.length < o.length) : digitsVal s < digitsVal o := by
  match o with
  | c :: t =>
    have hst : s.length ≤ t.length := by
      simpa [Nat.lt_succ_iff] using hlen
    have hne : t ≠ [] := by
      cases t with
      | nil =>
        exfalso
        exact hns (List.length_eq_zero.mp (Nat.le_zero.mp (by simpa using hst)))
      | cons _ _ => simp
    have hc0 : c ≠ '0' := by
      cases t with
      | nil => exact absurd rfl hne
      | cons x xs =>
        simp only [hasLeadingZero, beq_eq_false_iff_ne, ne_eq] at hzo
        exact hzo
    have hcnum : isNum c = true := by
      simp only [allNum, List.all_cons, Bool.and_eq_true] at ho
      exact ho.1
    calc digitsVal s < 10 ^ s.length := digitsVal_lt hs
      _ ≤ 10 ^ t.length := Nat.pow_le_pow_right (by omega) hst
      _ ≤ digitsVal (c :: t) := digitsVal_ge hcnum hc0

theorem mul_pow_add_inj {M x y r r' : Nat} (hM : 0 < M) (hr : r < M) (hr' : r' < M)
    (h : x * M + r = y * M + r') : x = y ∧ r = r' := by
  have hx : (x * M + r) / M = x := by
    rw [Nat.mul_comm x M, Nat.mul_add_div hM, Nat.div_eq_of_lt hr]
    rfl
  have hy : (y * M + r') / M = y := by
    rw [Nat.mul_comm y M, Nat.mul_add_div hM, Nat.div_eq_of_lt hr']
    rfl
  have hxy : x = y := by rw [← hx, ← hy, h]
  subst hxy
  exact ⟨rfl, by omega⟩

theorem digitsVal_inj_of_length {s : List Char} (hs : allNum s = true) :
    ∀ {o : List Char}, allNum o = true → s.length = o.length →
      digitsVal s = digitsVal o → s = o := by
  induction s with
  | nil =>
    intro o _ hlen _
    cases o with
    | nil => rfl
    | cons _ _ => simp at hlen
  | cons a s' ih =>
    intro o ho hlen hval
    cases o with
    | nil => simp at hlen
    | cons b o' =>
      simp only [allNum, List.all_cons, Bool.and_eq_true] at hs ho
      have hlen' : s'.length = o'.length := by simpa using hlen
      have hval' : digitVal a * 10 ^ s'.length + digitsVal s'
          = digitVal b * 10 ^ s'.length + digitsVal o' := by
        simpa [digitsVal, hlen'] using hval
      have hbounds := mul_pow_add_inj (M := 10 ^ s'.length)
        (Nat.pos_pow_of_pos _ (by omega)) (digitsVal_lt hs.2)
        (hlen' ▸ digitsVal_lt ho.2) hval'
      have hab : a = b := digitVal_inj hs.1 ho.1 hbounds.1
      have hst : s' = o' := ih hs.2 ho.2 hlen' hbounds.2
      rw [hab, hst]

/-- Injectivity of the decimal reading on leading-zero-free digit
strings: two distinct such strings always denote distinct numbers. -/
theorem digit_string_inj {s o : List Char} (hs : allNum s = true)
    (ho : allNum o = true) (hzs : hasLeadingZero s = false)
    (hzo : hasLeadingZero o = false) (hns : s ≠ []) (hno : o ≠ [])
    (h : digitsVal s = digitsVal o) : s = o := by
  have hlen : s.length = o.length := by
    rcases Nat.lt_trichotomy s.length o.length with hlt | heq | hgt
    · exact absurd h (Nat.ne_of_lt (digitsVal_lt_of_length_lt hs ho hzo hns hlt))
    · exact heq
    · exact absurd h.symm (Nat.ne_of_lt (digitsVal_lt_of_length_lt ho hs hzs hno hgt))
  exact digitsVal_inj_of_length hs ho hlen h

/-! ## Antisymmetry of the Masterminds comparison -/

theorem char_toNat_inj {a b : Char} (h : a.toNat = b.toNat) : a = b := by
  cases a with
  | mk av ah =>
    cases b with
    | mk bv bh =>
      simp only [Char.toNat] at h
      congr 1
      cases av; cases bv
      simp_all [UInt32.toNat]
      congr 1
      exact BitVec.eq_of_toNat_eq h

theorem parseUint64_eq_some {l : List Char} {n : Nat} (h : parseUint64 l = some n) :
    l ≠ [] ∧ allNum l = true ∧ digitsVal l = n := by
  unfold parseUint64 at h
  split at h
  · exact absurd h (by simp)
  · split at h
    · split at h
      · rename_i hemp hall _
        exact ⟨by simpa using hemp, hall, by simpa using h⟩
      · exact absurd h (by simp)
    · exact absurd h (by simp)

theorem lexLt_trichotomy : ∀ s o : List Char,
    s = o ∨ (lexLt s o = true ∧ lexLt o s = false) ∨
      (lexLt o s = true ∧ lexLt s o = false) := by
  intro s
  induction s with
  | nil =>
    intro o
    cases o with
    | nil => exact Or.inl rfl
    | cons b bs => exact Or.inr (Or.inl (by simp [lexLt]))
  | cons a as ih =>
    intro o
    cases o with
    | nil => exact Or.inr (Or.inr (by simp [lexLt]))
    | cons b bs =>
      rcases Nat.lt_trichotomy a.toNat b.toNat with hlt | heq | hgt
      · exact Or.inr (Or.inl (by simp [lexLt, hlt, Nat.not_lt.mpr (Nat.le_of_lt hlt)]))
      · have hab : a = b := char_toNat_inj heq
        subst hab
        rcases ih bs with rfl | ⟨h1, h2⟩ | ⟨h1, h2⟩
        · exact Or.inl rfl
        · exact Or.inr (Or.inl (by simp [lexLt, h1, h2]))
        · exact Or.inr (Or.inr (by simp [lexLt, h1, h2]))
      · exact Or.inr (Or.inr (by simp [lexLt, hgt, Nat.not_lt.mpr (Nat.le_of_lt hgt)]))

namespace MSemver

theorem comparePrePart_self (s : List Char) : comparePrePart s s = 0 := by
  simp [comparePrePart]

theorem validPreIdent_nil : validPreIdent [] = true := by decide

/-- Under the identifier shape guaranteed by `validatePrerelease`,
`comparePrePart` is antisymmetric. -/
theorem comparePrePart_antisymm {s o : List Char} (hs : validPreIdent s = true)
    (ho : validPreIdent o = true) : comparePrePart o s = -comparePrePart s o := by
  by_cases heq : s = o
  · subst heq
    simp [comparePrePart_self]
  by_cases hs0 : s = []
  · subst hs0
    have ho0 : o ≠ [] := fun h => heq h.symm
    simp [comparePrePart, heq, Ne.symm heq, ho0]
  by_cases ho0 : o = []
  · subst ho0
    simp [comparePrePart, heq, Ne.symm heq, hs0]
  · have hos : o ≠ s := Ne.symm heq
    cases hpo : parseUint64 o with
    | none =>
      cases hps : parseUint64 s with
      | none =>
        simp only [comparePrePart, if_neg heq, if_neg hos, if_neg hs0, if_neg ho0,
          hpo, hps]
        rcases lexLt_trichotomy s o with rfl | ⟨h1, h2⟩ | ⟨h1, h2⟩
        · exact absurd rfl heq
        · simp [h1, h2]
        · simp [h1, h2]
      | some sv =>
        simp [comparePrePart, if_neg heq, if_neg hos, if_neg hs0, if_neg ho0, hpo, hps]
    | some ov =>
      cases hps : parseUint64 s with
      | none =>
        simp [comparePrePart, if_neg heq, if_neg hos, if_neg hs0, if_neg ho0, hpo, hps]
      | some sv =>
        have hsn := parseUint64_eq_some hps
        have hon := parseUint64_eq_some hpo
        have hzs : hasLeadingZero s = false := by
          unfold validPreIdent at hs
          rw [if_pos hsn.2.1] at hs
          simpa using hs
        have hzo : hasLeadingZero o = false := by
          unfold validPreIdent at ho
          rw [if_pos hon.2.1] at ho
          simpa using ho
        have hne : digitsVal s ≠ digitsVal o := fun hv =>
          heq (digit_string_inj hsn.2.1 hon.2.1 hzs hzo hsn.1 hon.1 hv)
        simp only [comparePrePart, if_neg heq, if_neg hos, if_neg hs0, if_neg ho0,
          hpo, hps]
        rcases Nat.lt_trichotomy sv ov with hlt | hv | hgt
        · rw [if_pos (show ov > sv from hlt), if_neg (show ¬(sv > ov) by omega)]
          decide
        · exact absurd (by rw [hsn.2.2, hon.2.2, hv]) hne
        · rw [if_neg (show ¬(ov > sv) by omega), if_pos (show sv > ov from hgt)]

theorem compEmptyRight_antisymm : ∀ l : List (List Char),
    (∀ p ∈ l, validPreIdent p = true) → compEmptyRight l = -compEmptyLeft l := by
  intro l
  induction l with
  | nil => intro _; simp [compEmptyLeft, compEmptyRight]
  | cons p ps ih =>
    intro hv
    have hp : validPreIdent p = true := hv p (by simp)
    have hd : comparePrePart p [] = -comparePrePart [] p :=
      comparePrePart_antisymm validPreIdent_nil hp
    simp only [compEmptyLeft, compEmptyRight, hd]
    by_cases h0 : comparePrePart [] p = 0
    · rw [if_neg (show ¬(-comparePrePart [] p ≠ 0) by omega),
        if_neg (show ¬(comparePrePart [] p ≠ 0) by omega)]
      exact ih (fun q hq => hv q (by simp [hq]))
    · rw [if_pos (show -comparePrePart [] p ≠ 0 by omega), if_pos h0]

theorem compPreLists_antisymm : ∀ l1 l2 : List (List Char),
    (∀ p ∈ l1, validPreIdent p = true) → (∀ p ∈ l2, validPreIdent p = true) →
    compPreLists l2 l1 = -compPreLists l1 l2 := by
  intro l1
  induction l1 with
  | nil =>
    intro l2 _ hv2
    cases l2 with
    | nil => simp [compPreLists, compEmptyLeft]
    | cons o os =>
      have ho : validPreIdent o = true := hv2 o (by simp)
      have hd : comparePrePart o [] = -comparePrePart [] o :=
        comparePrePart_antisymm validPreIdent_nil ho
      simp only [compPreLists, compEmptyLeft, hd]
      by_cases h0 : comparePrePart [] o = 0
      · rw [if_neg (show ¬(-comparePrePart [] o ≠ 0) by omega),
          if_neg (show ¬(comparePrePart [] o ≠ 0) by omega)]
        have := compEmptyRight_antisymm os (fun q hq => hv2 q (by simp [hq]))
        omega
      · rw [if_pos (show -comparePrePart [] o ≠ 0 by omega), if_pos h0]
  | cons s ss ih =>
    intro l2 hv1 hv2
    cases l2 with
    | nil =>
      have hsv : validPreIdent s = true := hv1 s (by simp)
      have hd : comparePrePart s [] = -comparePrePart [] s :=
        comparePrePart_antisymm validPreIdent_nil hsv
      simp only [compPreLists, compEmptyLeft, hd]
      by_cases h0 : comparePrePart [] s = 0
      · rw [if_neg (show ¬(-comparePrePart [] s ≠ 0) by omega),
          if_neg (show ¬(comparePrePart [] s ≠ 0) by omega)]
        have := compEmptyRight_antisymm ss (fun q hq => hv1 q (by simp [hq]))
        omega
      · rw [if_pos (show -comparePrePart [] s ≠ 0 by omega), if_pos h0]
        omega
    | cons o os =>
      have hsv : validPreIdent s = true := hv1 s (by simp)
      have hov : validPreIdent o = true := hv2 o (by simp)
      have hd : comparePrePart o s = -comparePrePart s o :=
        comparePrePart_antisymm hsv hov
      simp only [compPreLists, hd]
      by_cases h0 : comparePrePart s o = 0
      · rw [if_neg (show ¬(-comparePrePart s o ≠ 0) by omega),
          if_neg (show ¬(comparePrePart s o ≠ 0) by omega)]
        exact ih os (fun q hq => hv1 q (by simp [hq])) (fun q hq => hv2 q (by simp [hq]))
      · rw [if_pos (show -comparePrePart s o ≠ 0 by omega), if_pos h0]

theorem compPreLists_self : ∀ l : List (List Char), compPreLists l l = 0 := by
  intro l
  induction l with
  | nil => simp [compPreLists, compEmptyLeft]
  | cons p ps ih => simp [compPreLists, comparePrePart_self, ih]

theorem compareSegment_self (v : Nat) : compareSegment v v = 0 := by
  simp [compareSegment]

theorem compareSegment_antisymm (v o : Nat) :
    compareSegment o v = -compareSegment v o := by
  unfold compareSegment
  split_ifs <;> omega

theorem validatePrerelease_nil : validatePrerelease [] = true := by decide

theorem mcomparePre_self (p : List Char) : mcomparePre p p = 0 := by
  by_cases h : p = [] <;>
    simp [mcomparePre, h, comparePrerelease, compPreLists_self]

theorem mcompare_self (v : MVersion) : mcompare v v = 0 := by
  simp [mcompare, compareSegment_self, mcomparePre_self]

theorem mcomparePre_antisymm {p q : List Char} (hp : validatePrerelease p = true)
    (hq : validatePrerelease q = true) : mcomparePre q p = -mcomparePre p q := by
  by_cases h1 : p = []
  · by_cases h2 : q = [] <;> simp [mcomparePre, h1, h2]
  · by_cases h2 : q = []
    · simp [mcomparePre, h1, h2]
    · have hvp : ∀ x ∈ splitOnChar '.' p, validPreIdent x = true := by
        intro x hx
        exact List.all_eq_true.mp hp x hx
      have hvq : ∀ x ∈ splitOnChar '.' q, validPreIdent x = true := by
        intro x hx
        exact List.all_eq_true.mp hq x hx
      rw [show mcomparePre q p = comparePrerelease q p by simp [mcomparePre, h1, h2],
        show mcomparePre p q = comparePrerelease p q by simp [mcomparePre, h1, h2]]
      exact compPreLists_antisymm _ _ hvp hvq

theorem ite_neg_chain (d k1 k2 : Int) (hk : k1 = -k2) :
    (if -d ≠ 0 then -d else k1) = -(if d ≠ 0 then d else k2) := by
  by_cases h : d = 0
  · subst h
    simpa using hk
  · rw [if_pos (show -d ≠ 0 by omega), if_pos h]

/-- Antisymmetry of `Version.Compare` on versions whose prerelease passed
`validatePrerelease` (as every `StrictNewVersion` result did). -/
theorem mcompare_antisymm {a b : MVersion} (ha : validatePrerelease a.pre = true)
    (hb : validatePrerelease b.pre = true) : mcompare b a = -mcompare a b := by
  unfold mcompare
  rw [compareSegment_antisymm a.major b.major, compareSegment_antisymm a.minor b.minor,
    compareSegment_antisymm a.patch b.patch]
  exact ite_neg_chain _ _ _ (ite_neg_chain _ _ _ (ite_neg_chain _ _ _
    (mcomparePre_antisymm ha hb)))

/-- Every version produced by `StrictNewVersion` carries a prerelease
accepted by `validatePrerelease`. -/
theorem strictNewVersion_pre_valid {s : List Char} {v : MVersion}
    (h : strictNewVersion s = some v) : validatePrerelease v.pre = true := by
  unfold strictNewVersion at h
  split at h
  case h_2 => exact absurd h (by simp)
  case h_1 q0 q1 q2 heq =>
    rcases hE : extractExtras q2 with ⟨patchStr, pre, md⟩
    rw [hE] at h
    dsimp only at h
    split at h
    case isTrue => exact absurd h (by simp)
    case isFalse =>
      split at h
      case isTrue => exact absurd h (by simp)
      case isFalse =>
        split at h
        case h_1 major minor patch hm0 hm1 hm2 =>
          split at h
          case isTrue hboth =>
            cases h
            simp only [Bool.and_eq_true, List.isEmpty_iff] at hboth
            simp [hboth.1, validatePrerelease_nil]
          case isFalse hboth =>
            split at h
            case isTrue => exact absurd h (by simp)
            case isFalse hnp =>
              split at h
              case isTrue => exact absurd h (by simp)
              case isFalse hnm =>
                cases h
                by_cases hpe : pre.isEmpty = true
                · simp [List.isEmpty_iff.mp hpe, validatePrerelease_nil]
                · have hv : validatePrerelease pre = true := by
                    by_contra hvp
                    exact hnp (by simp [hpe, hvp])
                  simpa using hv
        all_goals exact absurd h (by simp)

end MSemver

/-! ## Claim C3 -/

/-- C3 (counterexample): the claim "`newerOrEqual(a, b) != newerOrEqual(b, a)`
whenever `a != b`" fails on the code: `"1.0.0+a"` and `"1.0.0+b"` are distinct
strings that both parse as valid strict semantic versions, yet
`newerOrEqual` is `true` in both directions, because `Version.Compare`
ignores build metadata. -/
theorem c3_counterexample :
    "1.0.0+a".data ≠ "1.0.0+b".data ∧
    (MSemver.strictNewVersion "1.0.0+a".data).isSome = true ∧
    (MSemver.strictNewVersion "1.0.0+b".data).isSome = true ∧
    MSemver.newerOrEqualStr "1.0.0+a".data "1.0.0+b".data = some true ∧
    MSemver.newerOrEqualStr "1.0.0+b".data "1.0.0+a".data = some true := by
  decide

/-- C3 (amended): for all strings that parse as valid strict semantic
versions, `newerOrEqual(a, a)` is true, and
`newerOrEqual(a, b) != newerOrEqual(b, a)` whenever the two parsed versions
are not equal in semantic-version precedence (`Compare` nonzero). -/
theorem c3_newerOrEqual_refl_asymm (a b : List Char) (va vb : MSemver.MVersion)
    (ha : MSemver.strictNewVersion a = some va)
    (hb : MSemver.strictNewVersion b = some vb) :
    MSemver.IsNewerOrEqual va va = true ∧
    (MSemver.mcompare va vb ≠ 0 →
      MSemver.IsNewerOrEqual va vb ≠ MSemver.IsNewerOrEqual vb va) := by
  constructor
  · simp [MSemver.IsNewerOrEqual, MSemver.lessThan, MSemver.mcompare_self]
  · intro hne
    have hanti : MSemver.mcompare vb va = -MSemver.mcompare va vb :=
      MSemver.mcompare_antisymm (MSemver.strictNewVersion_pre_valid ha)
        (MSemver.strictNewVersion_pre_valid hb)
    by_cases hlt : MSemver.mcompare va vb < 0
    · have h2 : ¬(MSemver.mcompare vb va < 0) := by omega
      simp [MSemver.IsNewerOrEqual, MSemver.lessThan, hlt, h2]
    · have h2 : MSemver.mcompare vb va < 0 := by omega
      simp [MSemver.IsNewerOrEqual, MSemver.lessThan, hlt, h2]

/-- Witness for C3 (amended) at `a = "1.0.0"`, `b = "2.0.0"`. -/
theorem c3_newerOrEqual_refl_asymm_witness :
    MSemver.IsNewerOrEqual ⟨1, 0, 0, [], []⟩ ⟨2, 0, 0, [], []⟩ ≠
      MSemver.IsNewerOrEqual ⟨2, 0, 0, [], []⟩ ⟨1, 0, 0, [], []⟩ :=
  (c3_newerOrEqual_refl_asymm "1.0.0".data "2.0.0".data ⟨1, 0, 0, [], []⟩
    ⟨2, 0, 0, [], []⟩ (by decide) (by decide)).2 (by decide)

/-! ## Claim C1 -/

/-- C1: in the artifacts handler the version-syntax check precedes the
existence check: when the `packageVersion` segment does not parse, the
handler answers 400 for every filesystem state (so without consulting the
filesystem), and it answers 404 exactly when the version parses and the
stat of the package directory reports not-exists. -/
theorem c1_version_check_precedes_existence (pv : List Char) (statResult : StatR)
    (entries : List WalkEntry) :
    (BSemver.parse pv = none →
      serveHTTP statResult entries pv = Response.badRequest ∧
      (serveHTTP statResult entries pv).status = 400) ∧
    (serveHTTP statResult entries pv = Response.notFound ↔
      (BSemver.parse pv).isSome = true ∧ statResult = StatR.notExist) := by
  constructor
  · intro hp
    simp [serveHTTP, hp, Response.status]
  · constructor
    · intro h
      unfold serveHTTP at h
      cases hp : BSemver.parse pv with
      | none => rw [hp] at h; exact absurd h (by simp)
      | some v =>
        rw [hp] at h
        cases statResult with
        | okStat => exact absurd h (by simp)
        | notExist => exact ⟨by simp [hp], rfl⟩
        | statErr => exact absurd h (by simp)
    · rintro ⟨hsome, rfl⟩
      cases hp : BSemver.parse pv with
      | none => rw [hp] at hsome; exact absurd hsome (by simp)
      | some v => simp [serveHTTP, hp]

/-- Witness for C1: a malformed version yields 400 even when the package
directory exists; a well-formed version with a missing directory yields
404. -/
theorem c1_witness :
    serveHTTP StatR.okStat [] "a.b.c".data = Response.badRequest ∧
    serveHTTP StatR.notExist [] "1.0.0".data = Response.notFound :=
  ⟨((c1_version_check_precedes_existence "a.b.c".data StatR.okStat []).1
      (by decide)).1,
   (c1_version_check_precedes_existence "1.0.0".data StatR.notExist []).2.mpr
     ⟨by decide, rfl⟩⟩

/-! ## Walk lemmas shared by C2, C7 and C10 -/

theorem runWalk_append_clean (good l : List WalkEntry)
    (hgood : ∀ e ∈ good, e.walkErr = false ∧ (e.isDir = false → e.openErr = false)) :
    runWalk (good ++ l) = ((emitAll good) ++ (runWalk l).1, (runWalk l).2) := by
  induction good with
  | nil => simp [emitAll]
  | cons e es ih =>
    have he := hgood e (by simp)
    have hes : ∀ x ∈ es, x.walkErr = false ∧ (x.isDir = false → x.openErr = false) :=
      fun x hx => hgood x (by simp [hx])
    simp only [List.cons_append, runWalk, emitAll]
    rw [if_neg (by simp [he.1])]
    by_cases hroot : e.relPath = ['.']
    · simp [hroot, ih hes]
    · rw [if_neg hroot]
      by_cases hdir : e.isDir = true
      · simp [hdir, emitEntry, hroot, ih hes]
      · have hopen : e.openErr = false := he.2 (by simpa using hdir)
        simp [hdir, hopen, emitEntry, hroot, ih hes]

theorem runWalk_clean (entries : List WalkEntry)
    (h : ∀ e ∈ entries, e.walkErr = false ∧ (e.isDir = false → e.openErr = false)) :
    runWalk entries = (emitAll entries, false) := by
  have hr := runWalk_append_clean entries [] h
  simpa [runWalk] using hr

theorem runWalk_header_mem (entries : List WalkEntry) :
    ∀ h : TarHeader, StreamItem.header h ∈ (runWalk entries).1 →
      ∃ e ∈ entries, e.relPath ≠ ['.'] ∧ h = buildArchiveHeader e := by
  induction entries with
  | nil => intro h hmem; simp [runWalk] at hmem
  | cons e es ih =>
    intro h hmem
    unfold runWalk at hmem
    by_cases hw : e.walkErr = true
    · rw [if_pos hw] at hmem
      simp at hmem
    · rw [if_neg hw] at hmem
      by_cases hroot : e.relPath = ['.']
      · rw [if_pos hroot] at hmem
        obtain ⟨x, hx, hr, hh⟩ := ih h hmem
        exact ⟨x, by simp [hx], hr, hh⟩
      · rw [if_neg hroot] at hmem
        by_cases hdir : e.isDir = true
        · rw [if_pos hdir] at hmem
          rcases List.mem_cons.mp hmem with hh | hmem'
          · exact ⟨e, by simp, hroot, by simpa using hh⟩
          · obtain ⟨x, hx, hr, hh⟩ := ih h hmem'
            exact ⟨x, by simp [hx], hr, hh⟩
        · rw [if_neg hdir] at hmem
          by_cases hop : e.openErr = true
          · rw [if_pos hop] at hmem
            rcases List.mem_cons.mp hmem with hh | hmem'
            · exact ⟨e, by simp, hroot, by simpa using hh⟩
            · simp at hmem'
          · rw [if_neg hop] at hmem
            rcases List.mem_cons.mp hmem with hh | hmem'
            · exact ⟨e, by simp, hroot, by simpa using hh⟩
            · rcases List.mem_cons.mp hmem' with hh | hmem''
              · exact absurd hh (by simp)
              · obtain ⟨x, hx, hr, hh⟩ := ih h hmem''
                exact ⟨x, by simp [hx], hr, hh⟩

/-! ## Claim C10 -/

/-- C10: the walk skips the relative path `"."`, so every archive member
name written by the handler comes from a non-root entry: it is never
empty, never `"."` and never `"./"`, but the relative path of an entry
strictly inside the package directory (with `/` appended for
directories).  The hypotheses record what `filepath.Rel` guarantees for
walked paths: non-empty, with no trailing slash. -/
theorem c10_walk_skips_package_root (entries : List WalkEntry)
    (h0 : ∀ e ∈ entries, e.relPath ≠ [] ∧ e.relPath.getLast? ≠ some '/') :
    ∀ h : TarHeader, StreamItem.header h ∈ (runWalk entries).1 →
      h.name ≠ [] ∧ h.name ≠ ['.'] ∧ h.name ≠ ['.', '/'] ∧
      ∃ e ∈ entries, e.relPath ≠ ['.'] ∧ h.name = headerName e := by
  intro h hmem
  obtain ⟨e, he, hroot, rfl⟩ := runWalk_header_mem entries h hmem
  have hrel := h0 e he
  have hname : (buildArchiveHeader e).name = headerName e := rfl
  refine ⟨?_, ?_, ?_, e, he, hroot, hname⟩
  · rw [hname]
    unfold headerName
    by_cases hdir : e.isDir = true <;> simp [hdir, hrel.1]
  · rw [hname]
    unfold headerName
    by_cases hdir : e.isDir = true
    · rw [if_pos hdir]
      intro hcontra
      have hlen := congrArg List.length hcontra
      simp at hlen
      exact hrel.1 hlen
    · simpa [hdir] using hroot
  · rw [hname]
    unfold headerName
    by_cases hdir : e.isDir = true
    · rw [if_pos hdir]
      intro hcontra
      have hdl := congrArg List.dropLast hcontra
      rw [List.dropLast_concat] at hdl
      exact hroot (by simpa using hdl)
    · rw [if_neg hdir]
      intro hcontra
      apply hrel.2
      rw [List.append_nil] at hcontra
      rw [hcontra]
      rfl

/-! ## Claim C7 -/

/-- C7: a filesystem error arising mid-walk, after archive bytes began
streaming, leaves the already-sent 200 response intact: the handler still
returns the `stream` response (never an error status), the body is
exactly the items emitted before the failing entry (an incoming walk
error stops before that entry's header; a file-open error stops right
after its header), nothing is appended, and the deferred closes run tar
writer before gzip writer — as they do for every streamed response. -/
theorem c7_midwalk_error_truncates (pv : List Char) (v : BSemver.BVersion)
    (hpv : BSemver.parse pv = some v) (good : List WalkEntry) (bad : WalkEntry)
    (rest : List WalkEntry)
    (hgood : ∀ e ∈ good, e.walkErr = false ∧ (e.isDir = false → e.openErr = false)) :
    (bad.walkErr = true →
      serveHTTP StatR.okStat (good ++ bad :: rest) pv =
        Response.stream (emitAll good) true [Writer.tarWriter, Writer.gzipWriter]) ∧
    (bad.walkErr = false → bad.isDir = false → bad.openErr = true →
      bad.relPath ≠ ['.'] →
      serveHTTP StatR.okStat (good ++ bad :: rest) pv =
        Response.stream
          (emitAll good ++ [StreamItem.header (buildArchiveHeader bad)])
          true [Writer.tarWriter, Writer.gzipWriter]) ∧
    (∀ entries : List WalkEntry,
      (serveHTTP StatR.okStat entries pv).status = 200) := by
  have hrw := runWalk_append_clean good (bad :: rest) hgood
  refine ⟨?_, ?_, ?_⟩
  · intro hbw
    simp [serveHTTP, hpv, hrw, runWalk, hbw]
  · intro h1 h2 h3 h4
    simp [serveHTTP, hpv, hrw, runWalk, h1, h2, h3, h4]
  · intro entries
    simp [serveHTTP, hpv, Response.status]

/-- Witness for C7: concrete instances of both truncation scenarios. -/
theorem c7_witness :
    serveHTTP StatR.okStat
        [⟨"f".data, false, 2, 420, 9, [1, 2], true, false⟩] "1.0.0".data =
      Response.stream [] true [Writer.tarWriter, Writer.gzipWriter] ∧
    serveHTTP StatR.okStat
        [⟨"g".data, false, 2, 420, 9, [1, 2], false, true⟩] "1.0.0".data =
      Response.stream
        [StreamItem.header (buildArchiveHeader
          ⟨"g".data, false, 2, 420, 9, [1, 2], false, true⟩)]
        true [Writer.tarWriter, Writer.gzipWriter] :=
  ⟨by
    have hc := c7_midwalk_error_truncates "1.0.0".data ⟨1, 0, 0, [], []⟩ (by decide)
      [] ⟨"f".data, false, 2, 420, 9, [1, 2], true, false⟩ [] (by simp)
    simpa [emitAll] using hc.1 rfl,
   by
    have hc := c7_midwalk_error_truncates "1.0.0".data ⟨1, 0, 0, [], []⟩ (by decide)
      [] ⟨"g".data, false, 2, 420, 9, [1, 2], false, true⟩ [] (by simp)
    simpa [emitAll] using hc.2.1 rfl rfl rfl (by decide)⟩

/-- Witness for C10 at a one-file walk. -/
theorem c10_witness :
    (buildArchiveHeader
        (⟨"f".data, false, 2, 420, 9, [1, 2], false, false⟩ : WalkEntry)).name ≠
      [] ∧
    (buildArchiveHeader
        (⟨"f".data, false, 2, 420, 9, [1, 2], false, false⟩ : WalkEntry)).name ≠
      ['.'] ∧
    (buildArchiveHeader
        (⟨"f".data, false, 2, 420, 9, [1, 2], false, false⟩ : WalkEntry)).name ≠
      ['.', '/'] ∧
    ∃ e ∈ [(⟨"f".data, false, 2, 420, 9, [1, 2], false, false⟩ : WalkEntry)],
      e.relPath ≠ ['.'] ∧
      (buildArchiveHeader
        (⟨"f".data, false, 2, 420, 9, [1, 2], false, false⟩ : WalkEntry)).name =
        headerName e :=
  c10_walk_skips_package_root
    [⟨"f".data, false, 2, 420, 9, [1, 2], false, false⟩] (by decide)
    (buildArchiveHeader ⟨"f".data, false, 2, 420, 9, [1, 2], false, false⟩)
    (by decide)

/-! ## Claim C2 -/

theorem headerName_inj {e1 e2 : WalkEntry}
    (h1 : e1.relPath.getLast? ≠ some '/') (h2 : e2.relPath.getLast? ≠ some '/')
    (hne : e1.relPath ≠ e2.relPath) : headerName e1 ≠ headerName e2 := by
  unfold headerName
  by_cases hd1 : e1.isDir = true <;> by_cases hd2 : e2.isDir = true
  · rw [if_pos hd1, if_pos hd2]
    intro hcontra
    have hdl := congrArg List.dropLast hcontra
    rw [List.dropLast_concat, List.dropLast_concat] at hdl
    exact hne hdl
  · rw [if_pos hd1, if_neg hd2, List.append_nil]
    intro hcontra
    apply h2
    rw [← hcontra, List.getLast?_concat]
  · rw [if_neg hd1, if_pos hd2, List.append_nil]
    intro hcontra
    apply h1
    rw [hcontra, List.getLast?_concat]
  · rw [if_neg hd1, if_neg hd2, List.append_nil, List.append_nil]
    exact hne

theorem emitEntry_countP_self (e : WalkEntry) :
    (emitEntry e).countP (isHeaderNamed (headerName e)) = 1 := by
  by_cases hdir : e.isDir = true <;>
    simp [emitEntry, isHeaderNamed, buildArchiveHeader, headerName, hdir,
      List.countP_cons]

theorem emitEntry_countP_ne {e : WalkEntry} {n : List Char}
    (hne : headerName e ≠ n) :
    (emitEntry e).countP (isHeaderNamed n) = 0 := by
  have hb : ((buildArchiveHeader e).name == n) = false := by
    simpa [buildArchiveHeader, headerName] using hne
  by_cases hdir : e.isDir = true <;>
    simp [emitEntry, isHeaderNamed, hdir, List.countP_cons, hb]

theorem emitAll_countP_zero {es : List WalkEntry} {n : List Char}
    (h : ∀ e ∈ es, e.relPath ≠ ['.'] → headerName e ≠ n) :
    (emitAll es).countP (isHeaderNamed n) = 0 := by
  induction es with
  | nil => simp [emitAll]
  | cons e es ih =>
    simp only [emitAll, List.countP_append]
    rw [ih (fun x hx => h x (by simp [hx]))]
    by_cases hroot : e.relPath = ['.']
    · simp [hroot]
    · rw [if_neg hroot]
      simp [emitEntry_countP_ne (h e (by simp) hroot)]

theorem emitAll_getElem_zero_not_bytes (l : List WalkEntry) (b : List Nat) :
    (emitAll l)[0]? ≠ some (StreamItem.fileBytes b) := by
  induction l with
  | nil => simp [emitAll]
  | cons x xs ih =>
    by_cases hroot : x.relPath = ['.']
    · simpa [emitAll, hroot] using ih
    · simp [emitAll, hroot, emitEntry]

theorem emitAll_spec (entries : List WalkEntry)
    (hnodup : (entries.map WalkEntry.relPath).Nodup)
    (hslash : ∀ e ∈ entries, e.relPath.getLast? ≠ some '/') :
    ∀ e ∈ entries, e.relPath ≠ ['.'] →
      (emitAll entries).countP (isHeaderNamed (headerName e)) = 1 ∧
      ∃ i, (emitAll entries)[i]? =
          some (StreamItem.header (buildArchiveHeader e)) ∧
        (e.isDir = true →
          ∀ b, (emitAll entries)[i + 1]? ≠ some (StreamItem.fileBytes b)) ∧
        (e.isDir = false →
          (emitAll entries)[i + 1]? = some (StreamItem.fileBytes e.content)) := by
  induction entries with
  | nil => intro e he; simp at he
  | cons e0 es ih =>
    intro e he hroot
    simp only [List.map_cons, List.nodup_cons] at hnodup
    have hslash0 : e0.relPath.getLast? ≠ some '/' := hslash e0 (by simp)
    have hslashes : ∀ x ∈ es, x.relPath.getLast? ≠ some '/' :=
      fun x hx => hslash x (by simp [hx])
    rcases List.mem_cons.mp he with rfl | hes
    · -- the target entry is the head
      constructor
      · simp only [emitAll, if_neg hroot, List.countP_append,
          emitEntry_countP_self]
        have hz : (emitAll es).countP (isHeaderNamed (headerName e)) = 0 := by
          apply emitAll_countP_zero
          intro x hx _
          refine headerName_inj (hslashes x hx) hslash0 ?_
          intro hcontra
          exact hnodup.1 (hcontra ▸ List.mem_map_of_mem WalkEntry.relPath hx)
        omega
      · refine ⟨0, ?_, ?_, ?_⟩
        · simp [emitAll, if_neg hroot, emitEntry]
        · intro hdir b
          simp only [emitAll, if_neg hroot, emitEntry, hdir, if_pos rfl]
          simpa using emitAll_getElem_zero_not_bytes es b
        · intro hdir
          simp [emitAll, if_neg hroot, emitEntry, hdir]
    · -- the target entry is in the tail
      obtain ⟨hcount, i, hget, hdirs, hfile⟩ :=
        ih hnodup.2 hslashes e hes hroot
      have hne0 : e0.relPath ≠ e.relPath := by
        intro hcontra
        exact hnodup.1 (hcontra ▸ List.mem_map_of_mem WalkEntry.relPath hes)
      constructor
      · simp only [emitAll, List.countP_append, hcount]
        by_cases hroot0 : e0.relPath = ['.']
        · simp [hroot0]
        · rw [if_neg hroot0]
          rw [emitEntry_countP_ne (headerName_inj hslash0 (hslashes e hes) hne0)]
      · set P := (if e0.relPath = ['.'] then [] else emitEntry e0) with hP
        have hlen : ∀ j, (P ++ emitAll es)[P.length + j]? = (emitAll es)[j]? := by
          intro j
          rw [List.getElem?_append_right (by omega)]
          congr 1
          omega
        refine ⟨P.length + i, ?_, ?_, ?_⟩
        · show (P ++ emitAll es)[P.length + i]? = _
          rw [hlen i]
          exact hget
        · intro hdir b
          show (P ++ emitAll es)[P.length + i + 1]? ≠ _
          rw [Nat.add_assoc, hlen (i + 1)]
          exact hdirs hdir b
        · intro hdir
          show (P ++ emitAll es)[P.length + i + 1]? = _
          rw [Nat.add_assoc, hlen (i + 1)]
          exact hfile hdir

/-- C2 (counterexample): the claim that every header takes its size from
the filesystem entry fails for directories: `tar.FileInfoHeader` sets the
size only for regular files, so a directory entry whose filesystem size
is 7 produces a header of size 0. -/
theorem c2_counterexample :
    (runWalk [⟨"d".data, true, 7, 493, 3, [], false, false⟩]).1 =
      [StreamItem.header ⟨"d/".data, 0, 493, 3, true⟩] ∧
    (0 : Nat) ≠ 7 := by decide

/-- C2 (amended): on an error-free walk with distinct relative paths (as
`filepath.Walk` delivers, without trailing slashes), every entry other
than the package root yields exactly one tar header, named by the entry's
relative path with `/` appended exactly for directories, carrying the
entry's mode, modification time and entry type — and the entry's size for
files, while directory headers carry size 0; a directory header is
followed by no content bytes, and a file header is immediately followed
by the file's full byte content. -/
theorem c2_archive_entries (entries : List WalkEntry)
    (hclean : ∀ e ∈ entries, e.walkErr = false ∧ e.openErr = false)
    (hnodup : (entries.map WalkEntry.relPath).Nodup)
    (hslash : ∀ e ∈ entries, e.relPath.getLast? ≠ some '/') :
    (runWalk entries).2 = false ∧
    ∀ e ∈ entries, e.relPath ≠ ['.'] →
      (runWalk entries).1.countP (isHeaderNamed (headerName e)) = 1 ∧
      ∃ i h, (runWalk entries).1[i]? = some (StreamItem.header h) ∧
        h.name = e.relPath ++ (if e.isDir then ['/'] else []) ∧
        h.mode = e.mode ∧ h.modTime = e.modTime ∧ h.isDirType = e.isDir ∧
        h.size = (if e.isDir then 0 else e.size) ∧
        (e.isDir = true →
          ∀ b, (runWalk entries).1[i + 1]? ≠ some (StreamItem.fileBytes b)) ∧
        (e.isDir = false →
          (runWalk entries).1[i + 1]? = some (StreamItem.fileBytes e.content)) := by
  have hrw := runWalk_clean entries
    (fun e he => ⟨(hclean e he).1, fun _ => (hclean e he).2⟩)
  rw [hrw]
  refine ⟨rfl, ?_⟩
  intro e he hroot
  obtain ⟨hcount, i, hget, hdirs, hfile⟩ :=
    emitAll_spec entries hnodup hslash e he hroot
  exact ⟨hcount, i, buildArchiveHeader e, hget, rfl, rfl, rfl, rfl, rfl,
    hdirs, hfile⟩

/-- Witness for C2 (amended) on a walk delivering a directory and a
file. -/
theorem c2_archive_entries_witness :
    (runWalk [⟨"docs".data, true, 7, 493, 3, [], false, false⟩,
      ⟨"manifest.yml".data, false, 2, 420, 9, [7, 8], false, false⟩]).2 =
      false :=
  (c2_archive_entries
    [⟨"docs".data, true, 7, 493, 3, [], false, false⟩,
     ⟨"manifest.yml".data, false, 2, 420, 9, [7, 8], false, false⟩]
    (by decide) (by decide) (by decide)).1

/-! ## Claims C4 and C9 -/

/-- C4: `HasKibanaVersion` with a supplied parsed version returns true
exactly when the package declares no kibana-version constraint or its
parsed constraint is satisfied by the version; a package with an absent
constraint passes for every version.  The hypothesis records the
`NewPackage` invariant that an existing `Conditions` always carries a
parsed constraint.  The same shape holds for the legacy revision. -/
theorem c4_hasKibanaVersion (p : PackageC)
    (hp : ∀ c, p.conditions = some c → c.kibanaVersion.isSome = true)
    (v : MSemver.MVersion) (lp : LegacyPackage) (bv : BSemver.BVersion) :
    (p.HasKibanaVersion (some v) = some true ↔
      (p.conditions = none ∨
        ∃ c check, p.conditions = some c ∧ c.kibanaVersion = some check ∧
          check v = true)) ∧
    (lp.HasKibanaVersion (some bv) = true ↔
      (lp.kibana.Versions = [] ∨ lp.kibana.semVerRange bv = true)) := by
  constructor
  · constructor
    · intro h
      cases hc : p.conditions with
      | none => exact Or.inl rfl
      | some c =>
        cases hk : c.kibanaVersion with
        | none =>
          have hcs := hp c hc
          rw [hk] at hcs
          exact absurd hcs (by simp)
        | some check =>
          refine Or.inr ⟨c, check, rfl, hk, ?_⟩
          simp only [PackageC.HasKibanaVersion, hc, hk] at h
          simpa using h
    · intro h
      rcases h with hnone | ⟨c, check, hc, hk, hcv⟩
      · simp [PackageC.HasKibanaVersion, hnone]
      · simp [PackageC.HasKibanaVersion, hc, hk, hcv]
  · constructor
    · intro h
      by_cases hv : lp.kibana.Versions = []
      · exact Or.inl hv
      · simp only [LegacyPackage.HasKibanaVersion, if_neg hv] at h
        right
        by_cases hr : lp.kibana.semVerRange bv = true
        · exact hr
        · rw [if_pos (by simp [hr])] at h
          exact absurd h (by simp)
    · intro h
      rcases h with h | h
      · simp [LegacyPackage.HasKibanaVersion, h]
      · by_cases hv : lp.kibana.Versions = [] <;>
          simp [LegacyPackage.HasKibanaVersion, hv, h]

/-- Witness for C4: a package with a constraint satisfied by the query
version passes; the legacy revision likewise. -/
theorem c4_hasKibanaVersion_witness :
    PackageC.HasKibanaVersion ⟨some ⟨"^7.0.0".data, some (fun _ => true)⟩⟩
      (some ⟨7, 0, 0, [], []⟩) = some true :=
  ((c4_hasKibanaVersion ⟨some ⟨"^7.0.0".data, some (fun _ => true)⟩⟩
      (fun c hc => by cases hc; rfl) ⟨7, 0, 0, [], []⟩
      ⟨⟨[], fun _ => true⟩⟩ ⟨1, 0, 0, [], []⟩).1).mpr
    (Or.inr ⟨_, _, rfl, rfl, rfl⟩)

/-- C9: supplying no kibana version never excludes a package on
compatibility grounds — `HasKibanaVersion(p, nil)` is true for every
package, in the current and the legacy revision, even when a constraint
is declared. -/
theorem c9_nil_version_always_passes (p : PackageC) (lp : LegacyPackage) :
    p.HasKibanaVersion none = some true ∧ lp.HasKibanaVersion none = true := by
  constructor
  · cases hc : p.conditions <;> simp [PackageC.HasKibanaVersion, hc]
  · by_cases hv : lp.kibana.Versions = [] <;>
      simp [LegacyPackage.HasKibanaVersion, hv]

/-- Witness for C9: a package that does declare a constraint (one that
rejects every version) still passes a nil-version query. -/
theorem c9_witness :
    PackageC.HasKibanaVersion ⟨some ⟨"^7.0.0".data, some (fun _ => false)⟩⟩
      none = some true :=
  (c9_nil_version_always_passes
    ⟨some ⟨"^7.0.0".data, some (fun _ => false)⟩⟩
    ⟨⟨">=6.0.0".data, fun _ => false⟩⟩).1

/-! ## Claim C6 -/

/-- C6: version/path consistency validation rejects a package whose
manifest version disagrees with the version encoded in the storage path,
but only when the base directory name itself parses as a version: a
non-version base directory name skips the check (the escape hatch), and a
parsing, precedence-equal directory version is accepted. -/
theorem c6_version_consistency (version basePath : List Char)
    (vp : MSemver.MVersion) (hv : looseNewVersion version = some vp) :
    (looseNewVersion (filepathBase basePath) = none →
      validateVersionConsistency version basePath = true) ∧
    (∀ vd, looseNewVersion (filepathBase basePath) = some vd →
      (validateVersionConsistency version basePath = true ↔
        MSemver.mcompare vp vd = 0)) := by
  constructor
  · intro hd
    simp [validateVersionConsistency, hv, hd]
  · intro vd hd
    constructor
    · intro h
      simp only [validateVersionConsistency, hv, hd] at h
      by_contra hne
      rw [if_neg hne] at h
      exact absurd h (by simp)
    · intro h
      simp [validateVersionConsistency, hv, hd, h]

/-- Witness for C6: matching path accepted, non-version path accepted
(escape hatch), mismatching path rejected. -/
theorem c6_witness :
    validateVersionConsistency "1.0.2".data "packages/example/1.0.2".data =
      true ∧
    validateVersionConsistency "1.0.2".data "packages/example".data = true ∧
    validateVersionConsistency "1.0.2".data "packages/example/1.0.3".data =
      false := by
  refine ⟨?_, ?_, ?_⟩
  · exact ((c6_version_consistency "1.0.2".data "packages/example/1.0.2".data
      ⟨1, 0, 2, [], []⟩ (by decide)).2 ⟨1, 0, 2, [], []⟩ (by decide)).mpr
      (by decide)
  · exact (c6_version_consistency "1.0.2".data "packages/example".data
      ⟨1, 0, 2, [], []⟩ (by decide)).1 (by decide)
  · have hiff := (c6_version_consistency "1.0.2".data
      "packages/example/1.0.3".data ⟨1, 0, 2, [], []⟩ (by decide)).2
      ⟨1, 0, 3, [], []⟩ (by decide)
    cases hval : validateVersionConsistency "1.0.2".data
        "packages/example/1.0.3".data with
    | true => exact absurd (hiff.mp hval) (by decide)
    | false => rfl

/-! ## Claim C5 -/

/-- C5: dataset validation (`DataSet.Validate`) resolves the ingest
pipeline as claimed: a referenced pipeline name fails validation unless
a file named `<reference>.json` or `<reference>.yml` exists in the
dataset's ingest-pipeline directory; with no reference, a pipeline named
`default` is adopted when `default.json` or `default.yml` exists there;
and pipeline files present while no pipeline ends up referenced is a
validation error.  (`hid` restricts to identifiers that pass the
preceding hyphen check.) -/
theorem c5_ingest_pipeline (id ingestPipeline : List Char)
    (files : List (List Char)) (hid : id.contains '-' = false) :
    (ingestPipeline ≠ [] →
      ((files.contains (ingestPipeline ++ ".json".data) = true ∨
        files.contains (ingestPipeline ++ ".yml".data) = true) →
        dataSetValidate id ingestPipeline files = Except.ok ingestPipeline) ∧
      (¬(files.contains (ingestPipeline ++ ".json".data) = true ∨
         files.contains (ingestPipeline ++ ".yml".data) = true) →
        dataSetValidate id ingestPipeline files =
          Except.error "Defined ingest_pipeline does not exist".data)) ∧
    (ingestPipeline = [] →
      ((files.contains "default.json".data = true ∨
        files.contains "default.yml".data = true) →
        dataSetValidate id [] files = Except.ok "default".data) ∧
      (¬(files.contains "default.json".data = true ∨
         files.contains "default.yml".data = true) → files ≠ [] →
        dataSetValidate id [] files =
          Except.error "Package contains pipelines which are not used".data)) := by
  have hm : '-' ∉ id := by simpa using hid
  constructor
  · intro hne
    have hipe : ingestPipeline.isEmpty = false := by
      simpa [List.isEmpty_iff] using hne
    constructor
    · intro hex
      have hj : ingestPipeline ++ ".json".data ∈ files ∨
          ingestPipeline ++ ".yml".data ∈ files := by
        rcases hex with h | h
        · exact Or.inl (by simpa using h)
        · exact Or.inr (by simpa using h)
      rcases hj with h | h <;>
        simp [dataSetValidate, adoptDefaultPipeline, hm, hne, hipe, h]
    · intro hex
      push_neg at hex
      have h1 : ingestPipeline ++ ".json".data ∉ files := by simpa using hex.1
      have h2 : ingestPipeline ++ ".yml".data ∉ files := by simpa using hex.2
      simp [dataSetValidate, adoptDefaultPipeline, hm, hne, hipe, h1, h2]
  · rintro rfl
    constructor
    · intro hdef
      have hj : "default.json".data ∈ files ∨ "default.yml".data ∈ files := by
        rcases hdef with h | h
        · exact Or.inl (by simpa using h)
        · exact Or.inr (by simpa using h)
      have e1 : "default".data ++ ".json".data = "default.json".data := by decide
      have e2 : "default".data ++ ".yml".data = "default.yml".data := by decide
      rcases hj with h | h <;>
        simp [dataSetValidate, adoptDefaultPipeline, hm, e1, e2, h]
    · intro hdef hne
      push_neg at hdef
      have h1 : "default.json".data ∉ files := by simpa using hdef.1
      have h2 : "default.yml".data ∉ files := by simpa using hdef.2
      have hfe : files.isEmpty = false := by simpa [List.isEmpty_iff] using hne
      simp [dataSetValidate, adoptDefaultPipeline, hm, h1, h2, hfe]

/-- Witness for C5: a referenced pipeline resolves through its `.yml`
file; orphaned pipeline files with no reference are an error. -/
theorem c5_witness :
    dataSetValidate "apache.access".data "entry".data ["entry.yml".data] =
      Except.ok "entry".data ∧
    dataSetValidate "apache.access".data [] ["stray.json".data] =
      Except.error "Package contains pipelines which are not used".data :=
  ⟨((c5_ingest_pipeline "apache.access".data "entry".data ["entry.yml".data]
      (by decide)).1 (by decide)).1 (Or.inr (by decide)),
   ((c5_ingest_pipeline "apache.access".data [] ["stray.json".data]
      (by decide)).2 rfl).2 (by decide) (by decide)⟩

/-! ## Claim C8 -/

/-- The hyphen error is raised by `DataSet.Validate` only when the
identifier it saw contains a hyphen — the other two error paths carry
different messages. -/
theorem dataSetValidate_hyphen_error {id ip : List Char}
    {files : List (List Char)}
    (h : dataSetValidate id ip files =
      Except.error "dataset name is not allowed to contain -".data) :
    id.contains '-' = true := by
  by_contra hc
  simp only [Bool.not_eq_true] at hc
  unfold dataSetValidate at h
  rw [if_neg (show ¬(id.contains '-' = true) by rw [hc]; simp)] at h
  split at h
  · exact absurd h (by decide)
  · split at h
    · exact absurd h (by decide)
    · exact absurd h (by simp)

/-- C8 (counterexample): the identifier hyphen check runs during manifest
unpacking, before the empty identifier is defaulted, so a hyphenated
package name produces a resulting (defaulted) identifier containing a
hyphen without any validation failure. -/
theorem c8_counterexample :
    loadDataSet "foo-bar".data "baz".data [] [] [] =
      Except.ok "foo-bar.baz".data ∧
    "foo-bar.baz".data.contains '-' = true := by decide

/-- C8 (amended): dataset loading fails with the identifier error exactly
when the manifest-supplied identifier contains a hyphen
(`DataSet.Validate` runs during `Unpack`, before defaulting); when the
identifier is hyphen-free and validation otherwise succeeds, an empty
manifest identifier defaults to
`"{package name}.{dataset directory name}"` without re-validation. -/
theorem c8_dataset_id (packageName dirName manifestID ingestPipeline : List Char)
    (files : List (List Char)) :
    (loadDataSet packageName dirName manifestID ingestPipeline files =
        Except.error "dataset name is not allowed to contain -".data ↔
      manifestID.contains '-' = true) ∧
    (manifestID.contains '-' = false →
      ∀ p, dataSetValidate manifestID ingestPipeline files = Except.ok p →
        loadDataSet packageName dirName manifestID ingestPipeline files =
          Except.ok (if manifestID = [] then packageName ++ '.' :: dirName
            else manifestID)) := by
  constructor
  · constructor
    · intro hmsg
      cases hv : dataSetValidate manifestID ingestPipeline files with
      | ok p =>
        rw [loadDataSet, hv] at hmsg
        exact absurd hmsg (by simp)
      | error e =>
        rw [loadDataSet, hv] at hmsg
        simp only [Except.error.injEq] at hmsg
        exact dataSetValidate_hyphen_error (hmsg ▸ hv)
    · intro h
      have hm : '-' ∈ manifestID := by simpa using h
      simp [loadDataSet, dataSetValidate, hm]
  · intro h p hv
    simp [loadDataSet, hv]

/-- Witness for C8 (amended): the defaulted identifier of a plain package
name. -/
theorem c8_dataset_id_witness :
    loadDataSet "example".data "dir".data [] [] [] =
      Except.ok "example.dir".data :=
  ((c8_dataset_id "example".data "dir".data [] [] []).2 (by decide) []
    (by decide)).trans (by decide)

end Registry
